import Mathlib

/-!
Shallow embedding of the `re-tool` disassembler (src/main.rs, src/gb.rs,
src/disassembler.rs).  Rust `u8`/`u16`/`usize` values are modelled as `Nat`;
fallible array indexing and slicing are made explicit: every place where the
Rust code would panic (index out of bounds) is a distinct `panic` outcome of
the modelled operation.  Loops are modelled as fuel-indexed recursions; a
`fuelOut` outcome means the fuel bound was reached, and the fuel arguments of
theorems are chosen or quantified so that this never stands in for a real
result.
-/

/-- Byte classification tag (duplicated in the source in both
`src/disassembler.rs` and `src/main.rs` with identical constructors). -/
inductive ByteType
  | Unknown
  | Data
  | Code
deriving DecidableEq, Repr

/-- `UnmappedAddress(pub u16)` from src/gb.rs. -/
structure UnmappedAddress where
  val : Nat
deriving DecidableEq, Repr

/-- 8-bit register names from src/gb.rs. -/
inductive Reg8
  | A | B | C | D | E | H | L | IndirectHL
deriving DecidableEq, Repr

/-- 16-bit register names from src/gb.rs. -/
inductive Reg16
  | AF | BC | DE | HL | SP
deriving DecidableEq, Repr

/-- Reset vectors from src/gb.rs. -/
inductive ResetVector
  | H00 | H08 | H10 | H18 | H20 | H28 | H30 | H38
deriving DecidableEq, Repr

/-- `ResetVector::address` from src/gb.rs. -/
def ResetVector.address : ResetVector → UnmappedAddress
  | .H00 => ⟨0x00⟩
  | .H08 => ⟨0x08⟩
  | .H10 => ⟨0x10⟩
  | .H18 => ⟨0x18⟩
  | .H20 => ⟨0x20⟩
  | .H28 => ⟨0x28⟩
  | .H30 => ⟨0x30⟩
  | .H38 => ⟨0x38⟩

/-- `SpecialInstruction` (the CB-prefixed instructions) from src/gb.rs. -/
inductive SpecialInstruction
  | RL (r : Reg8)
  | SLA (r : Reg8)
  | RES0 (r : Reg8)
deriving DecidableEq, Repr

/-- `SpecialInstruction::from_byte` from src/gb.rs. -/
def SpecialInstruction.from_byte (byte : Nat) : Option SpecialInstruction :=
  if byte = 0x12 then some (.RL .D)
  else if byte = 0x23 then some (.SLA .E)
  else if byte = 0x87 then some (.RES0 .A)
  else none

/-- The GB instruction enumeration from src/gb.rs.  Signed 8-bit relative
offsets (`i8` in the source) are carried as `Int`. -/
inductive GBInstruction
  | NOP
  | LDd16 (r : Reg16) (v : Nat)
  | LDi16A (r : Reg16)
  | INC16 (r : Reg16)
  | DEC16 (r : Reg16)
  | INC8 (r : Reg8)
  | DEC8 (r : Reg8)
  | LDd8 (r : Reg8) (v : Nat)
  | ADDHL (r : Reg16)
  | JRr8 (o : Int)
  | JRNZr8 (o : Int)
  | LDHLincA
  | JRZr8 (o : Int)
  | LDAHLdec
  | LDHLdecA
  | LD (d s : Reg8)
  | SUB (r : Reg8)
  | AND (r : Reg8)
  | XOR (r : Reg8)
  | OR (r : Reg8)
  | CP (r : Reg8)
  | RETNZ
  | JPNZa16 (a : UnmappedAddress)
  | JPa16 (a : UnmappedAddress)
  | RST (v : ResetVector)
  | RET
  | JPZa16 (a : UnmappedAddress)
  | Special (s : SpecialInstruction)
  | CALLa16 (a : UnmappedAddress)
  | PUSH (r : Reg16)
  | POP (r : Reg16)
  | LDHa8A (v : Nat)
  | LDCA
  | ANDd8 (v : Nat)
  | JPHL
  | LDa16A (a : UnmappedAddress)
  | LDHAa8 (v : Nat)
  | DI
  | LDAa16 (a : UnmappedAddress)
  | EI
  | CPd8 (v : Nat)
deriving DecidableEq, Repr

/-- Result of attempting `GBInstruction::from_bytes` on a byte window.
`panic` models Rust's index-out-of-bounds abort (the source indexes
`bytes[0]`, `bytes[1]` and slices `bytes[1..3]` without length checks);
`illegal` models the `None` return on an unrecognised opcode. -/
inductive DecodeRes
  | panic
  | illegal
  | ok (i : GBInstruction)
deriving DecidableEq, Repr

/-- Rust `bytes[1] as i8`: two's-complement reading of a byte. -/
def toI8 (x : Nat) : Int :=
  if x < 128 then (x : Int) else (x : Int) - 256

/-- The register table `[B, C, D, E, H, L, IndirectHL, A]` indexed in the
`0x40..=0x7f` arm of `from_bytes`; Rust indexes it with a value `< 8`, and
index 7 is `A`, which the catch-all arm reproduces exactly. -/
def reg8FromIndex (i : Nat) : Reg8 :=
  match i with
  | 0 => .B
  | 1 => .C
  | 2 => .D
  | 3 => .E
  | 4 => .H
  | 5 => .L
  | 6 => .IndirectHL
  | _ => .A

/-- `u16::from_le_bytes(bytes[1..3])`: panics unless two operand bytes are
present after the opcode. -/
def imm16 (rest : List Nat) (k : Nat → GBInstruction) : DecodeRes :=
  match rest with
  | lo :: hi :: _ => .ok (k (lo + 256 * hi))
  | _ => .panic

/-- `bytes[1]`: panics unless one operand byte is present after the opcode. -/
def imm8 (rest : List Nat) (k : Nat → GBInstruction) : DecodeRes :=
  match rest with
  | x :: _ => .ok (k x)
  | _ => .panic

/-- `GBInstruction::from_bytes` from src/gb.rs, with Rust's unchecked
indexing made explicit: an empty window or a window too short for the
opcode's operands is a `panic`, an unmatched opcode is `illegal`. -/
def GBInstruction.from_bytes (bytes : List Nat) : DecodeRes :=
  match bytes with
  | [] => .panic
  | b :: rest =>
    if b = 0x00 then .ok .NOP
    else if b = 0x01 then imm16 rest (fun v => .LDd16 .BC v)
    else if b = 0x02 then .ok (.LDi16A .BC)
    else if b = 0x03 then .ok (.INC16 .BC)
    else if b = 0x04 then .ok (.INC8 .B)
    else if b = 0x05 then .ok (.DEC8 .B)
    else if b = 0x06 then imm8 rest (fun v => .LDd8 .B v)
    else if b = 0x0b then .ok (.DEC16 .BC)
    else if b = 0x0c then .ok (.INC8 .C)
    else if b = 0x0d then .ok (.DEC8 .C)
    else if b = 0x0e then imm8 rest (fun v => .LDd8 .C v)
    else if b = 0x11 then imm16 rest (fun v => .LDd16 .DE v)
    else if b = 0x12 then .ok (.LDi16A .DE)
    else if b = 0x13 then .ok (.INC16 .DE)
    else if b = 0x14 then .ok (.INC8 .D)
    else if b = 0x15 then .ok (.DEC8 .D)
    else if b = 0x16 then imm8 rest (fun v => .LDd8 .D v)
    else if b = 0x19 then .ok (.ADDHL .DE)
    else if b = 0x1b then .ok (.DEC16 .DE)
    else if b = 0x1c then .ok (.INC8 .E)
    else if b = 0x1d then .ok (.DEC8 .E)
    else if b = 0x1e then imm8 rest (fun v => .LDd8 .E v)
    else if b = 0x18 then imm8 rest (fun v => .JRr8 (toI8 v))
    else if b = 0x20 then imm8 rest (fun v => .JRNZr8 (toI8 v))
    else if b = 0x21 then imm16 rest (fun v => .LDd16 .HL v)
    else if b = 0x22 then .ok .LDHLincA
    else if b = 0x23 then .ok (.INC16 .HL)
    else if b = 0x24 then .ok (.INC8 .H)
    else if b = 0x25 then .ok (.DEC8 .H)
    else if b = 0x26 then imm8 rest (fun v => .LDd8 .H v)
    else if b = 0x28 then imm8 rest (fun v => .JRZr8 (toI8 v))
    else if b = 0x2a then .ok .LDAHLdec
    else if b = 0x2b then .ok (.DEC16 .HL)
    else if b = 0x2c then .ok (.INC8 .L)
    else if b = 0x2d then .ok (.DEC8 .L)
    else if b = 0x2e then imm8 rest (fun v => .LDd8 .L v)
    else if b = 0x31 then imm16 rest (fun v => .LDd16 .SP v)
    else if b = 0x32 then .ok .LDHLdecA
    else if b = 0x33 then .ok (.INC16 .SP)
    else if b = 0x34 then .ok (.INC8 .IndirectHL)
    else if b = 0x35 then .ok (.DEC8 .IndirectHL)
    else if b = 0x36 then imm8 rest (fun v => .LDd8 .IndirectHL v)
    else if b = 0x3b then .ok (.DEC16 .SP)
    else if b = 0x3c then .ok (.INC8 .A)
    else if b = 0x3d then .ok (.DEC8 .A)
    else if b = 0x3e then imm8 rest (fun v => .LDd8 .A v)
    else if 0x40 ≤ b ∧ b ≤ 0x7f then
      if b = 0x76 then .illegal
      else .ok (.LD (reg8FromIndex ((b &&& 0x38) >>> 3)) (reg8FromIndex (b &&& 0x07)))
    else if b = 0x90 then .ok (.SUB .B)
    else if b = 0x91 then .ok (.SUB .C)
    else if b = 0x92 then .ok (.SUB .D)
    else if b = 0x93 then .ok (.SUB .E)
    else if b = 0x94 then .ok (.SUB .H)
    else if b = 0x95 then .ok (.SUB .L)
    else if b = 0x96 then .ok (.SUB .IndirectHL)
    else if b = 0x97 then .ok (.SUB .A)
    else if b = 0xa0 then .ok (.AND .B)
    else if b = 0xa1 then .ok (.AND .C)
    else if b = 0xa2 then .ok (.AND .D)
    else if b = 0xa3 then .ok (.AND .E)
    else if b = 0xa4 then .ok (.AND .H)
    else if b = 0xa5 then .ok (.AND .L)
    else if b = 0xa6 then .ok (.AND .IndirectHL)
    else if b = 0xa7 then .ok (.AND .A)
    else if b = 0xa8 then .ok (.XOR .B)
    else if b = 0xa9 then .ok (.XOR .C)
    else if b = 0xaa then .ok (.XOR .D)
    else if b = 0xab then .ok (.XOR .E)
    else if b = 0xac then .ok (.XOR .H)
    else if b = 0xad then .ok (.XOR .L)
    else if b = 0xae then .ok (.XOR .IndirectHL)
    else if b = 0xaf then .ok (.XOR .A)
    else if b = 0xb0 then .ok (.OR .B)
    else if b = 0xb1 then .ok (.OR .C)
    else if b = 0xb2 then .ok (.OR .D)
    else if b = 0xb3 then .ok (.OR .E)
    else if b = 0xb4 then .ok (.OR .H)
    else if b = 0xb5 then .ok (.OR .L)
    else if b = 0xb6 then .ok (.OR .IndirectHL)
    else if b = 0xb7 then .ok (.OR .A)
    else if b = 0xb8 then .ok (.CP .B)
    else if b = 0xb9 then .ok (.CP .C)
    else if b = 0xba then .ok (.CP .D)
    else if b = 0xbb then .ok (.CP .E)
    else if b = 0xbc then .ok (.CP .H)
    else if b = 0xbd then .ok (.CP .L)
    else if b = 0xbe then .ok (.CP .IndirectHL)
    else if b = 0xbf then .ok (.CP .A)
    else if b = 0xc0 then .ok .RETNZ
    else if b = 0xc1 then .ok (.POP .BC)
    else if b = 0xc2 then imm16 rest (fun v => .JPNZa16 ⟨v⟩)
    else if b = 0xc3 then imm16 rest (fun v => .JPa16 ⟨v⟩)
    else if b = 0xc5 then .ok (.PUSH .BC)
    else if b = 0xc7 then .ok (.RST .H00)
    else if b = 0xc9 then .ok .RET
    else if b = 0xca then imm16 rest (fun v => .JPZa16 ⟨v⟩)
    else if b = 0xcb then
      match rest with
      | [] => .panic
      | x :: _ =>
        match SpecialInstruction.from_byte x with
        | some si => .ok (.Special si)
        | none => .illegal
    else if b = 0xcd then imm16 rest (fun v => .CALLa16 ⟨v⟩)
    else if b = 0xcf then .ok (.RST .H08)
    else if b = 0xd1 then .ok (.POP .DE)
    else if b = 0xd5 then .ok (.PUSH .DE)
    else if b = 0xd7 then .ok (.RST .H10)
    else if b = 0xdf then .ok (.RST .H18)
    else if b = 0xe0 then imm8 rest (fun v => .LDHa8A v)
    else if b = 0xe1 then .ok (.POP .HL)
    else if b = 0xe7 then .ok (.RST .H20)
    else if b = 0xe2 then .ok .LDCA
    else if b = 0xe5 then .ok (.PUSH .HL)
    else if b = 0xe6 then imm8 rest (fun v => .ANDd8 v)
    else if b = 0xe9 then .ok .JPHL
    else if b = 0xea then imm16 rest (fun v => .LDa16A ⟨v⟩)
    else if b = 0xef then .ok (.RST .H28)
    else if b = 0xf0 then imm8 rest (fun v => .LDHAa8 v)
    else if b = 0xf1 then .ok (.POP .AF)
    else if b = 0xf3 then .ok .DI
    else if b = 0xf5 then .ok (.PUSH .AF)
    else if b = 0xf7 then .ok (.RST .H30)
    else if b = 0xfa then imm16 rest (fun v => .LDAa16 ⟨v⟩)
    else if b = 0xfb then .ok .EI
    else if b = 0xfe then imm8 rest (fun v => .CPd8 v)
    else if b = 0xff then .ok (.RST .H38)
    else .illegal

/-- `Instruction::size` for `GBInstruction` from src/gb.rs. -/
def GBInstruction.size : GBInstruction → Nat
  | .NOP => 1
  | .LDd16 _ _ => 3
  | .LDi16A _ => 1
  | .INC8 _ => 1
  | .DEC8 _ => 1
  | .INC16 _ => 1
  | .DEC16 _ => 1
  | .LDd8 _ _ => 2
  | .JRZr8 _ => 2
  | .ADDHL _ => 1
  | .JRr8 _ => 2
  | .JRNZr8 _ => 2
  | .LDHLincA => 1
  | .LDAHLdec => 1
  | .LDHLdecA => 1
  | .LD _ _ => 1
  | .SUB _ => 1
  | .AND _ => 1
  | .XOR _ => 1
  | .OR _ => 1
  | .CP _ => 1
  | .JPNZa16 _ => 3
  | .JPa16 _ => 3
  | .RET => 1
  | .JPZa16 _ => 3
  | .Special _ => 2
  | .CALLa16 _ => 3
  | .PUSH _ => 1
  | .RETNZ => 1
  | .POP _ => 1
  | .LDHa8A _ => 2
  | .LDCA => 1
  | .ANDd8 _ => 2
  | .JPHL => 1
  | .LDa16A _ => 3
  | .DI => 1
  | .LDAa16 _ => 3
  | .LDHAa8 _ => 2
  | .EI => 1
  | .CPd8 _ => 2
  | .RST _ => 1

/-- `Instruction::falls_through` for `GBInstruction` from src/gb.rs:
false exactly for `JP a16`, `JP (HL)`, `RET` and unconditional `JR`. -/
def GBInstruction.falls_through : GBInstruction → Bool
  | .JPa16 _ => false
  | .JPHL => false
  | .RET => false
  | .JRr8 _ => false
  | _ => true

/-- `GBInstruction::jump_address` from src/gb.rs (used by main.rs): the
absolute target of JP/CALL (conditional or not) and RST; relative JRs and
everything else yield none. -/
def GBInstruction.jump_address : GBInstruction → Option UnmappedAddress
  | .JPa16 a => some a
  | .CALLa16 a => some a
  | .JPZa16 a => some a
  | .JPNZa16 a => some a
  | .RST v => some v.address
  | _ => none

/-- `LogicalAddress` from src/disassembler.rs. -/
inductive LogicalAddress
  | Absolute (a : Nat)
  | Relative (o : Int)
deriving DecidableEq, Repr

/-- `Instruction::branch_address` for `GBInstruction` from src/gb.rs. -/
def GBInstruction.branch_address : GBInstruction → Option LogicalAddress
  | .JPa16 a => some (.Absolute a.val)
  | .CALLa16 a => some (.Absolute a.val)
  | .JPZa16 a => some (.Absolute a.val)
  | .JPNZa16 a => some (.Absolute a.val)
  | .JRr8 o => some (.Relative (o + (GBInstruction.JRr8 o).size))
  | .JRZr8 o => some (.Relative (o + (GBInstruction.JRZr8 o).size))
  | .JRNZr8 o => some (.Relative (o + (GBInstruction.JRNZr8 o).size))
  | .RST v => some (.Absolute v.address.val)
  | _ => none

/-- `GameBoy::resolve_address` from src/gb.rs: absolute addresses below
0x4000 resolve to themselves, both higher windows are unimplemented (TODO in
the source, `None`); relative offsets use `usize::wrapping_add`. -/
def GameBoy.resolve_address (address : LogicalAddress) (location : Nat) : Option Nat :=
  match address with
  | .Absolute a => if a < 0x4000 then some a else none
  | .Relative o => some (Int.toNat (((location : Int) + o) % (2 ^ 64)))

/-! ## The `Disassembler` from src/disassembler.rs -/

/-- `DisassemblerState` from src/disassembler.rs: the ROM and one tag per
offset. -/
structure DisassemblerState where
  rom : List Nat
  byte_type : List ByteType
deriving DecidableEq, Repr

/-- Result of the inner instruction-chain loop of `Disassembler::mark_code`:
the updated tags and the updated `branches` worklist, or a panic. -/
inductive MarkChainRes
  | panic
  | fuelOut
  | done (types : List ByteType) (branches : List Nat)
deriving DecidableEq, Repr

/-- The inner `while let Some(instruction) = Arch::disassemble(..)` loop of
`Disassembler::mark_code` (src/disassembler.rs lines 47-63), for the
`GameBoy` architecture, transcribed statement by statement.  Note the
source's guard: it breaks when the tag at the cursor is NOT `Code`, and
(re-)tags the cursor `Code` otherwise.  The worklist is a stack; `Vec::push`
is modelled by consing, so the head of the list is the element
`Vec::pop` removes. -/
def markChainFuel (rom : List Nat) :
    Nat → List ByteType → Nat → List Nat → MarkChainRes
  | 0, _, _, _ => .fuelOut
  | fuel + 1, types, address, branches =>
    match GBInstruction.from_bytes (rom.drop address) with
    | .panic => .panic
    | .illegal => .done types branches
    | .ok instruction =>
      match types.get? address with
      | none => .panic
      | some t =>
        if t ≠ ByteType.Code then .done types branches
        else
          let types' := types.set address ByteType.Code
          let branches' :=
            match instruction.branch_address.bind
                (fun la => GameBoy.resolve_address la address) with
            | some b => b :: branches
            | none => branches
          if instruction.falls_through = false then .done types' branches'
          else markChainFuel rom fuel types' (address + instruction.size) branches'

/-- Result of `Disassembler::mark_code`: the final tag table, or a panic. -/
inductive MarkRes
  | panic
  | fuelOut
  | ok (types : List ByteType)
deriving DecidableEq, Repr

/-- The outer `while let Some(address) = branches.pop()` worklist loop of
`Disassembler::mark_code` (src/disassembler.rs lines 44-65).  The inner
chain is run with fuel `rom.length + 1`, which can never run out because the
cursor strictly increases and decoding fails at or beyond the end of the
ROM. -/
def markCodeFuel (rom : List Nat) :
    Nat → List ByteType → List Nat → MarkRes
  | _, types, [] => .ok types
  | 0, _, _ :: _ => .fuelOut
  | fuel + 1, types, address :: branches =>
    match markChainFuel rom (rom.length + 1) types address branches with
    | .panic => .panic
    | .fuelOut => .fuelOut
    | .done types' branches' => markCodeFuel rom fuel types' branches'

/-- `Disassembler::mark_code(address)` seeds the worklist with the single
given address (`let mut branches = vec![address]`). -/
def Disassembler.mark_code (st : DisassemblerState) (fuel address : Nat) : MarkRes :=
  markCodeFuel st.rom fuel st.byte_type [address]

/-- `Disassembler::align_address_to_valid_location` from src/disassembler.rs
lines 75-87: `Data`/`Code` offsets are returned as-is; for `Unknown` the
`for back_offset in 1..3.min(address + 1)` loop is unrolled into its two
possible probes.  `none` models a panic (the initial tag read is an
unchecked index, and the probe decode can itself panic). -/
def Disassembler.align_address_to_valid_location
    (st : DisassemblerState) (address : Nat) : Option Nat :=
  match st.byte_type.get? address with
  | none => none
  | some ByteType.Data => some address
  | some ByteType.Code => some address
  | some ByteType.Unknown =>
    if 1 < min 3 (address + 1) then
      match GBInstruction.from_bytes (st.rom.drop (address - 1)) with
      | .panic => none
      | .ok _ => some (address - 1)
      | .illegal =>
        if 2 < min 3 (address + 1) then
          match GBInstruction.from_bytes (st.rom.drop (address - 2)) with
          | .panic => none
          | .ok _ => some (address - 2)
          | .illegal => some address
        else some address
    else some address

/-! ## The `Application` from src/main.rs -/

/-- `ResolvedAddress` from src/main.rs. -/
inductive ResolvedAddress
  | Physical (address : Nat)
  | UnknownBank (offset : Nat)
  | System (address : Nat)
deriving DecidableEq, Repr

/-- `ResolvedAddress::get` from src/main.rs. -/
def ResolvedAddress.get : ResolvedAddress → Option Nat
  | .Physical address => some address
  | _ => none

/-- The GB memory-map constant 0x4000 (bank size) used by
`resolve_physical_address`. -/
def bankSize : Nat := 0x4000

/-- `Application::resolve_physical_address` from src/main.rs lines 462-484.
The bank map (`self.banks: HashMap<usize, usize>`) is modelled as a partial
function from read-locations to bank numbers. -/
def resolve_physical_address (banks : Nat → Option Nat)
    (read_at : Nat) (address : UnmappedAddress) : ResolvedAddress :=
  if address.val < 0x4000 then .Physical address.val
  else if address.val < 0x8000 then
    let offset := address.val &&& 0x3fff
    if 0x4000 ≤ read_at ∧ read_at < 0x8000 then
      .Physical (read_at / 0x4000 * 0x4000 + offset)
    else
      match banks read_at with
      | some bank => .Physical (bank * 0x4000 + offset)
      | none => .UnknownBank (address.val &&& 0x3fff)
  else .System address.val

/-- Uppercase zero-padded six-digit hexadecimal rendering, Rust's
`format!("{:06X}", n)`. -/
def hexUpper6 (n : Nat) : String :=
  let ds := (Nat.toDigits 16 n).map Char.toUpper
  String.mk (List.replicate (6 - ds.length) '0' ++ ds)

/-- The default label `format!("LOC_{:06X}", physical_address)` inserted by
`handle_type_change`. -/
def labelName (physical_address : Nat) : String :=
  "LOC_" ++ hexUpper6 physical_address

/-- The mutable state of `Application` that byte classification touches:
ROM bytes, tags, labels and bank assignments (src/main.rs lines 39-53; the
window handle, cursor and follow stack are not read by
`handle_type_change`). -/
structure AppState where
  bytes : List Nat
  types : List ByteType
  labels : Nat → Option String
  banks : Nat → Option Nat

/-- The branch-target block of `handle_type_change` (src/main.rs lines
180-194): resolve the instruction's jump address; when it resolves to a
physical offset, queue it for Code classification if it is still `Unknown`
(an unchecked tag read, so `none` models the panic on an out-of-range
physical offset) and insert a default label if none is present. -/
def jumpStep (banks : Nat → Option Nat) (types : List ByteType)
    (labels : Nat → Option String) (address : Nat) (instruction : GBInstruction)
    (q : List (ByteType × Nat)) :
    Option (List (ByteType × Nat) × (Nat → Option String)) :=
  match instruction.jump_address with
  | none => some (q, labels)
  | some unmapped =>
    match (resolve_physical_address banks address unmapped).get with
    | none => some (q, labels)
    | some physical =>
      match types.get? physical with
      | none => none
      | some t =>
        some ((if t = ByteType.Unknown then (ByteType.Code, physical) :: q else q),
          (if (labels physical).isSome then labels
           else fun x => if x = physical then some (labelName physical) else labels x))

/-- Result of the decode-and-advance chain inside `handle_type_change`. -/
inductive ChainRes
  | panic
  | fuelOut
  | done (types : List ByteType) (labels : Nat → Option String)
      (q : List (ByteType × Nat))

/-- The `while let Some(instruction) = GBInstruction::from_bytes(..)` loop
of `handle_type_change` (src/main.rs lines 177-203), transcribed statement
by statement: process the branch target, stop if the instruction does not
fall through, advance by its size, stop (before re-tagging) if the next
offset is not `Unknown`, tag it `Code` and continue.  The pending
`type_changes` vector is threaded through; `Vec::push` is modelled by
consing so the head is the next element popped. -/
def chainFuel (bytes : List Nat) (banks : Nat → Option Nat) :
    Nat → List ByteType → (Nat → Option String) → Nat → List (ByteType × Nat) → ChainRes
  | 0, _, _, _, _ => .fuelOut
  | fuel + 1, types, labels, address, q =>
    match GBInstruction.from_bytes (bytes.drop address) with
    | .panic => .panic
    | .illegal => .done types labels q
    | .ok instruction =>
      match jumpStep banks types labels address instruction q with
      | none => .panic
      | some (q', labels') =>
        if instruction.falls_through = false then .done types labels' q'
        else
          match types.get? (address + instruction.size) with
          | none => .panic
          | some t =>
            if t = ByteType.Unknown then
              chainFuel bytes banks fuel
                (types.set (address + instruction.size) ByteType.Code)
                labels' (address + instruction.size) q'
            else .done types labels' q'

/-- Result of draining the pending type changes. -/
inductive DrainRes
  | panic
  | fuelOut
  | ok (s : AppState)

/-- `Application::handle_type_changes` (src/main.rs lines 165-205): pop a
pending `(tag, offset)` change, write the tag (an unchecked index, hence the
panic case), and if the tag is `Code` run the discovery chain from there;
repeat until the queue is empty.  The chain is run with fuel
`types.length + 1`, which can never run out because the cursor strictly
increases and stays below `types.length` on every iteration after a guard.  -/
def handle_type_changes (fuel : Nat) (s : AppState) :
    List (ByteType × Nat) → DrainRes
  | [] => .ok s
  | (byte_type, address) :: rest =>
    match fuel with
    | 0 => .fuelOut
    | fuel + 1 =>
      match s.types.get? address with
      | none => .panic
      | some _ =>
        let types₀ := s.types.set address byte_type
        if byte_type = ByteType.Code then
          match chainFuel s.bytes s.banks (types₀.length + 1) types₀ s.labels address rest with
          | .panic => .panic
          | .fuelOut => .fuelOut
          | .done types' labels' q' =>
            handle_type_changes fuel { s with types := types', labels := labels' } q'
        else handle_type_changes fuel { s with types := types₀ } rest

/-- Projection of a drain result onto the final tag table (used to state
concrete-scenario theorems without mentioning the label closures). -/
def DrainRes.finalTypes : DrainRes → Option (List ByteType)
  | .ok s => some s.types
  | _ => none

/-! ## The navigation history from src/main.rs -/

/-- The follow-history state: the cursor (`selected_address`), the
`follow_stack` vector and the `follow_stack_top` index. -/
structure NavState where
  selected : Nat
  stack : List Nat
  top : Nat
deriving DecidableEq, Repr

/-- `Application::push_follow` (src/main.rs lines 486-493): append when the
cursor is at the end of the stack, otherwise overwrite in place; entries
beyond the new cursor are left untouched.  `none` models the panic of
`self.follow_stack[self.follow_stack_top] = address` when the top index is
beyond the vector. -/
def push_follow (s : NavState) (address : Nat) : Option NavState :=
  if s.top = s.stack.length then
    some { s with stack := s.stack ++ [address], top := s.top + 1 }
  else if s.top < s.stack.length then
    some { s with stack := s.stack.set s.top address, top := s.top + 1 }
  else none

/-- The follow command ('G'/'f' handlers, src/main.rs lines 115-137): push
the current cursor onto the history, then move the view to the target. -/
def followTo (s : NavState) (target : Nat) : Option NavState :=
  (push_follow s s.selected).map (fun s' => { s' with selected := target })

/-- The back command ('o' handler with `follow_stack_previous`, src/main.rs
lines 138-143 and 495-502): a no-op at the oldest entry, otherwise step the
cursor back and move the view there. -/
def backStep (s : NavState) : Option NavState :=
  if s.top = 0 then some s
  else
    match s.stack.get? (s.top - 1) with
    | some address => some { s with top := s.top - 1, selected := address }
    | none => none

/-- The forward command ('i' handler with `follow_stack_next`, src/main.rs
lines 144-149 and 504-512): a no-op when the cursor is at the end of the
stack, otherwise move the view to the stored target and advance. -/
def forwardStep (s : NavState) : Option NavState :=
  if s.top = s.stack.length then some s
  else
    match s.stack.get? s.top with
    | some address => some { s with top := s.top + 1, selected := address }
    | none => none

/-- A sequence of follow commands, each pushing the cursor of the moment. -/
def followSeq : NavState → List Nat → Option NavState
  | s, [] => some s
  | s, t :: ts => (followTo s t).bind (fun s' => followSeq s' ts)

/-- `n` consecutive back commands. -/
def backSeq : NavState → Nat → Option NavState
  | s, 0 => some s
  | s, n + 1 => (backStep s).bind (fun s' => backSeq s' n)


/-! ## Supporting lemmas -/

/-- Writing back the value already stored at an index leaves a list
unchanged. -/
theorem set_of_get? {α : Type} (l : List α) (n : Nat) (v : α)
    (h : l.get? n = some v) : l.set n v = l := by
  induction l generalizing n with
  | nil => exact absurd h (by simp)
  | cons a l ih =>
    cases n with
    | zero =>
      have ha : a = v := by simpa using h
      simp [ha]
    | succ n =>
      have h' : l.get? n = some v := by simpa using h
      simp only [List.set]
      rw [ih n h']

/-- A successful `get?` bounds the index. -/
theorem lt_length_of_get? {α : Type} {l : List α} {n : Nat} {v : α}
    (h : l.get? n = some v) : n < l.length := by
  rcases List.get?_eq_some.mp h with ⟨hn, _⟩
  exact hn

/-- Every GB instruction occupies at least one byte. -/
theorem GBInstruction.size_pos (i : GBInstruction) : 1 ≤ i.size := by
  cases i <;> simp [GBInstruction.size]

/-- What a single `jumpStep` can do: it only ever extends the pending queue
at the front with a `Code` item whose target is currently `Unknown`, and it
never removes or changes an existing label. -/
theorem jumpStep_spec {banks : Nat → Option Nat} {types : List ByteType}
    {labels : Nat → Option String} {address : Nat} {instruction : GBInstruction}
    {q q' : List (ByteType × Nat)} {labels' : Nat → Option String}
    (h : jumpStep banks types labels address instruction q = some (q', labels')) :
    (∀ it ∈ q, it ∈ q') ∧
    (∀ it ∈ q', it ∈ q ∨
      (it.1 = ByteType.Code ∧ types.get? it.2 = some ByteType.Unknown)) ∧
    (∀ x v, labels x = some v → labels' x = some v) := by
  unfold jumpStep at h
  split at h
  · rcases h with ⟨rfl, rfl⟩
    exact ⟨fun it hit => hit, fun it hit => Or.inl hit, fun x v hv => hv⟩
  · split at h
    · rcases h with ⟨rfl, rfl⟩
      exact ⟨fun it hit => hit, fun it hit => Or.inl hit, fun x v hv => hv⟩
    · split at h
      · exact absurd h (by simp)
      · rename_i _ _ _ _ p _ _ t hp
        rcases h with ⟨rfl, rfl⟩
        refine ⟨?_, ?_, ?_⟩
        · intro it hit
          by_cases ht : t = ByteType.Unknown <;> simp [ht, hit]
        · intro it hit
          by_cases ht : t = ByteType.Unknown
          · simp [ht] at hit
            rcases hit with rfl | hit
            · right
              exact ⟨rfl, by simpa [ht] using hp⟩
            · exact Or.inl hit
          · simp [ht] at hit
            exact Or.inl hit
        · intro x v hv
          by_cases hs : (labels p).isSome = true
          · simp [hs, hv]
          · have hx : x ≠ p := by
              intro hxp
              subst hxp
              rw [hv] at hs
              simp at hs
            simp [hs, hx, hv]

/-- What the discovery chain of `handle_type_change` can do to the state:
tags change only from `Unknown` to `Code`; pending items are only added, and
every item of the final queue is either an original one or a `Code` item
whose target is not tagged `Data` at the end of the chain; labels are only
added, never changed. -/
theorem chain_spec (bytes : List Nat) (banks : Nat → Option Nat) :
    ∀ (fuel : Nat) (types : List ByteType) (labels : Nat → Option String)
      (address : Nat) (q : List (ByteType × Nat)) (types' : List ByteType)
      (labels' : Nat → Option String) (q' : List (ByteType × Nat)),
      chainFuel bytes banks fuel types labels address q = .done types' labels' q' →
      (∀ x, types'.get? x = types.get? x ∨
        (types.get? x = some ByteType.Unknown ∧
          types'.get? x = some ByteType.Code)) ∧
      (∀ it ∈ q, it ∈ q') ∧
      (∀ it ∈ q', it ∈ q ∨
        (it.1 = ByteType.Code ∧ types'.get? it.2 ≠ some ByteType.Data)) ∧
      (∀ x v, labels x = some v → labels' x = some v) := by
  intro fuel
  induction fuel with
  | zero =>
    intro types labels address q types' labels' q' h
    exact ChainRes.noConfusion h
  | succ fuel ih =>
    intro types labels address q types' labels' q' h
    simp only [chainFuel] at h
    split at h
    · exact ChainRes.noConfusion h
    · injection h with h1 h2 h3
      subst h1; subst h2; subst h3
      exact ⟨fun x => Or.inl rfl, fun it hit => hit, fun it hit => Or.inl hit,
        fun x v hv => hv⟩
    · rename_i instruction hdec
      split at h
      · exact ChainRes.noConfusion h
      · rename_i q₁ L₁ hjs
        obtain ⟨jmem, jchar, jlab⟩ := jumpStep_spec hjs
        split at h
        · injection h with h1 h2 h3
          subst h1; subst h2; subst h3
          refine ⟨fun x => Or.inl rfl, fun it hit => jmem it hit, ?_, jlab⟩
          intro it hit
          rcases jchar it hit with hold | ⟨hc, hu⟩
          · exact Or.inl hold
          · refine Or.inr ⟨hc, ?_⟩
            rw [hu]
            simp
        · split at h
          · exact ChainRes.noConfusion h
          · rename_i tnext hnext
            split at h
            · rename_i htu
              subst htu
              have hlen : address + instruction.size < types.length :=
                lt_length_of_get? hnext
              obtain ⟨hPT, hmem, hchar, hlab⟩ :=
                ih (types.set (address + instruction.size) ByteType.Code) L₁
                  (address + instruction.size) q₁ types' labels' q' h
              have hPTfull : ∀ x, types'.get? x = types.get? x ∨
                  (types.get? x = some ByteType.Unknown ∧
                    types'.get? x = some ByteType.Code) := by
                intro x
                by_cases hx : x = address + instruction.size
                · rcases hPT x with he | ⟨hu, hc⟩
                  · rw [hx, List.get?_set_eq_of_lt _ hlen] at he
                    rw [hx]
                    exact Or.inr ⟨hnext, he⟩
                  · rw [hx, List.get?_set_eq_of_lt _ hlen] at hu
                    exact absurd hu (by simp)
                · have hset : (types.set (address + instruction.size)
                      ByteType.Code).get? x = types.get? x :=
                    List.get?_set_ne _ _ (fun hh => hx hh.symm)
                  rcases hPT x with he | ⟨hu, hc⟩
                  · rw [hset] at he
                    exact Or.inl he
                  · rw [hset] at hu
                    exact Or.inr ⟨hu, hc⟩
              refine ⟨hPTfull, ?_, ?_, ?_⟩
              · intro it hit
                exact hmem it (jmem it hit)
              · intro it hit
                rcases hchar it hit with h1 | ⟨hc, hd⟩
                · rcases jchar it h1 with hold | ⟨hc, hu⟩
                  · exact Or.inl hold
                  · refine Or.inr ⟨hc, ?_⟩
                    rcases hPTfull it.2 with he | ⟨_, he⟩
                    · rw [he, hu]
                      simp
                    · rw [he]
                      simp
                · exact Or.inr ⟨hc, hd⟩
              · intro x v hv
                exact hlab x v (jlab x v hv)
            · injection h with h1 h2 h3
              subst h1; subst h2; subst h3
              refine ⟨fun x => Or.inl rfl, fun it hit => jmem it hit, ?_, jlab⟩
              intro it hit
              rcases jchar it hit with hold | ⟨hc, hu⟩
              · exact Or.inl hold
              · refine Or.inr ⟨hc, ?_⟩
                rw [hu]
                simp

/-- The queue invariant of the drain loop: every pending item is a `Code`
classification whose target offset is not currently tagged `Data`. -/
def QInv (types : List ByteType) (q : List (ByteType × Nat)) : Prop :=
  ∀ it ∈ q, it.1 = ByteType.Code ∧ types.get? it.2 ≠ some ByteType.Data

/-- The discovery chain preserves the queue invariant. -/
theorem chain_QInv {bytes : List Nat} {banks : Nat → Option Nat} {fuel : Nat}
    {types : List ByteType} {labels : Nat → Option String} {address : Nat}
    {q : List (ByteType × Nat)} {types' : List ByteType}
    {labels' : Nat → Option String} {q' : List (ByteType × Nat)}
    (h : chainFuel bytes banks fuel types labels address q = .done types' labels' q')
    (hq : QInv types q) : QInv types' q' := by
  obtain ⟨hPT, _, hchar, _⟩ := chain_spec bytes banks fuel types labels address q
    types' labels' q' h
  intro it hit
  rcases hchar it hit with hold | ⟨hc, hd⟩
  · obtain ⟨hc, hd⟩ := hq it hold
    refine ⟨hc, ?_⟩
    rcases hPT it.2 with he | ⟨_, he⟩
    · rw [he]
      exact hd
    · rw [he]
      simp
  · exact ⟨hc, hd⟩

/-- What a completed drain of the pending-change queue guarantees, under the
queue invariant: every tag that was not `Unknown` keeps its exact value,
every queued target ends up tagged `Code`, labels are only added, and the
ROM bytes and bank map are untouched. -/
theorem drain_spec :
    ∀ (fuel : Nat) (s : AppState) (q : List (ByteType × Nat)) (s' : AppState),
      handle_type_changes fuel s q = .ok s' → QInv s.types q →
      (∀ x v, s.types.get? x = some v → v ≠ ByteType.Unknown →
        s'.types.get? x = some v) ∧
      (∀ it ∈ q, s'.types.get? it.2 = some ByteType.Code) ∧
      (∀ x v, s.labels x = some v → s'.labels x = some v) ∧
      s'.bytes = s.bytes ∧ s'.banks = s.banks := by
  intro fuel
  induction fuel with
  | zero =>
    intro s q s' h hq
    cases q with
    | nil =>
      injection h with h1
      subst h1
      exact ⟨fun x v hv _ => hv, fun it hit => absurd hit (List.not_mem_nil it),
        fun x v hv => hv, rfl, rfl⟩
    | cons it rest =>
      rcases it with ⟨t, a⟩
      exact DrainRes.noConfusion h
  | succ fuel ih =>
    intro s q s' h hq
    cases q with
    | nil =>
      injection h with h1
      subst h1
      exact ⟨fun x v hv _ => hv, fun it hit => absurd hit (List.not_mem_nil it),
        fun x v hv => hv, rfl, rfl⟩
    | cons it rest =>
      rcases it with ⟨t, a⟩
      obtain ⟨htc, htd⟩ := hq (t, a) (List.mem_cons_self _ _)
      simp only at htc
      subst htc
      simp only [handle_type_changes] at h
      split at h
      · exact DrainRes.noConfusion h
      · rename_i t₀ ht₀
        simp only [if_true] at h
        split at h
        · exact DrainRes.noConfusion h
        · exact DrainRes.noConfusion h
        · rename_i T' L' q' hchain
          have hlen : a < s.types.length := lt_length_of_get? ht₀
          have hQ0 : QInv (s.types.set a ByteType.Code) rest := by
            intro jt hjt
            obtain ⟨hc, hd⟩ := hq jt (List.mem_cons_of_mem _ hjt)
            refine ⟨hc, ?_⟩
            by_cases hxa : jt.2 = a
            · rw [hxa, List.get?_set_eq_of_lt _ hlen]
              simp
            · rw [List.get?_set_ne _ _ (Ne.symm hxa)]
              exact hd
          have hQ' : QInv T' q' := chain_QInv hchain hQ0
          obtain ⟨P1, P2, P3, P4, P5⟩ := ih _ q' s' h hQ'
          obtain ⟨hPT, hmem, hchar, hlab⟩ :=
            chain_spec s.bytes s.banks _ (s.types.set a ByteType.Code) s.labels
              a rest T' L' q' hchain
          refine ⟨?_, ?_, ?_, P4, P5⟩
          · intro x v hv hvne
            have h0 : (s.types.set a ByteType.Code).get? x = some v := by
              by_cases hxa : x = a
              · subst hxa
                rw [List.get?_set_eq_of_lt _ hlen]
                have hvC : v = ByteType.Code := by
                  cases v with
                  | Unknown => exact absurd rfl hvne
                  | Data => exact absurd hv htd
                  | Code => rfl
                rw [hvC]
              · rw [List.get?_set_ne _ _ (Ne.symm hxa)]
                exact hv
            have h1 : T'.get? x = some v := by
              rcases hPT x with he | ⟨hu, _⟩
              · rw [he]
                exact h0
              · rw [h0] at hu
                injection hu with hu
                exact absurd hu hvne
            exact P1 x v h1 hvne
          · intro jt hjt
            rcases List.mem_cons.mp hjt with hhead | htail
            · have hT₀ : (s.types.set a ByteType.Code).get? a = some ByteType.Code :=
                List.get?_set_eq_of_lt _ hlen
              have hT' : T'.get? a = some ByteType.Code := by
                rcases hPT a with he | ⟨_, he⟩
                · rw [he]
                  exact hT₀
                · exact he
              have := P1 a ByteType.Code hT' (by simp)
              rw [hhead]
              exact this
            · exact P2 jt (hmem jt htail)
          · intro x v hv
            exact P3 x v (hlab x v hv)

/-- A single `Code` re-classification at an offset already tagged `Code`
leaves the state exactly as it is, provided decoding there cannot panic, any
resolved branch target is no longer `Unknown` and already labelled, and the
fallthrough successor (when the instruction falls through) is no longer
`Unknown`. -/
theorem drain_code_noop (s₁ : AppState) (a : Nat) (f : Nat)
    (hCode : s₁.types.get? a = some ByteType.Code)
    (hnp : GBInstruction.from_bytes (s₁.bytes.drop a) ≠ DecodeRes.panic)
    (hjump : ∀ instr, GBInstruction.from_bytes (s₁.bytes.drop a) = .ok instr →
      ∀ u, instr.jump_address = some u →
      ∀ p, (resolve_physical_address s₁.banks a u).get = some p →
        (∃ t, s₁.types.get? p = some t ∧ t ≠ ByteType.Unknown) ∧
        (s₁.labels p).isSome = true)
    (hfall : ∀ instr, GBInstruction.from_bytes (s₁.bytes.drop a) = .ok instr →
      instr.falls_through = true →
      ∃ tn, s₁.types.get? (a + instr.size) = some tn ∧ tn ≠ ByteType.Unknown) :
    handle_type_changes (f + 1) s₁ [(ByteType.Code, a)] = .ok s₁ := by
  have hset : s₁.types.set a ByteType.Code = s₁.types := set_of_get? _ _ _ hCode
  simp only [handle_type_changes, hCode, hset, if_true]
  rcases hdec : GBInstruction.from_bytes (s₁.bytes.drop a) with _ | _ | instr
  · exact absurd hdec hnp
  · simp [chainFuel, hdec, handle_type_changes]
  · simp only [chainFuel, hdec, jumpStep]
    rcases hja : instr.jump_address with _ | u
    · rcases hft : instr.falls_through with _ | _
      · simp [hft, handle_type_changes]
      · obtain ⟨tn, htn, htnn⟩ := hfall instr hdec hft
        have htn2 : s₁.types[a + instr.size]? = some tn := by
          rw [← List.get?_eq_getElem?]
          exact htn
        simp [hft, htn2, htnn, handle_type_changes]
    · rcases hr : (resolve_physical_address s₁.banks a u).get with _ | p
      · simp only [hr]
        rcases hft : instr.falls_through with _ | _
        · simp [hft, handle_type_changes]
        · obtain ⟨tn, htn, htnn⟩ := hfall instr hdec hft
          have htn2 : s₁.types[a + instr.size]? = some tn := by
            rw [← List.get?_eq_getElem?]
            exact htn
          simp [hft, htn2, htnn, handle_type_changes]
      · obtain ⟨⟨t, htp, htne⟩, hlabp⟩ := hjump instr hdec u hja p hr
        simp only [hr, htp, if_neg htne, hlabp, if_true]
        rcases hft : instr.falls_through with _ | _
        · simp [hft, handle_type_changes]
        · obtain ⟨tn, htn, htnn⟩ := hfall instr hdec hft
          have htn2 : s₁.types[a + instr.size]? = some tn := by
            rw [← List.get?_eq_getElem?]
            exact htn
          simp [hft, htn2, htnn, handle_type_changes]

/-- Reading off `jumpStep` at a resolved branch target: the target has some
current tag, it is queued whenever that tag is `Unknown`, and afterwards it
always carries a label. -/
theorem jumpStep_out {banks : Nat → Option Nat} {types : List ByteType}
    {labels : Nat → Option String} {address : Nat} {instruction : GBInstruction}
    {q q₁ : List (ByteType × Nat)} {L₁ : Nat → Option String}
    (hjs : jumpStep banks types labels address instruction q = some (q₁, L₁))
    {u : UnmappedAddress} (hu : instruction.jump_address = some u)
    {p : Nat} (hp : (resolve_physical_address banks address u).get = some p) :
    ∃ tp, types.get? p = some tp ∧
      (tp = ByteType.Unknown → (ByteType.Code, p) ∈ q₁) ∧
      (L₁ p).isSome = true := by
  unfold jumpStep at hjs
  simp only [hu, hp] at hjs
  rcases htp : types.get? p with _ | tp <;> rw [htp] at hjs
  · exact Option.noConfusion hjs
  · rcases hjs with ⟨rfl, rfl⟩
    refine ⟨tp, rfl, ?_, ?_⟩
    · intro htu
      simp [htu]
    · by_cases hs : (labels p).isSome = true
      · simp [hs]
      · simp [hs]

/-- C9: marking the same offset `Code` twice in immediate succession yields
the same classification as marking it once — a completed second drain of the
single pending change `(Code, a)` returns the state of the first drain
unchanged (for any positive fuel: the second pass stops after one
instruction). -/
theorem claim_C9_code_mark_idempotent
    (fuel : Nat) (s : AppState) (a : Nat) (s₁ : AppState) (f₂ : Nat)
    (h₁ : handle_type_changes fuel s [(ByteType.Code, a)] = .ok s₁) :
    handle_type_changes (f₂ + 1) s₁ [(ByteType.Code, a)] = .ok s₁ := by
  cases fuel with
  | zero => simp [handle_type_changes] at h₁
  | succ f =>
    simp only [handle_type_changes] at h₁
    split at h₁
    · exact DrainRes.noConfusion h₁
    · rename_i t₀ ht₀
      simp only [if_true] at h₁
      have hlen : a < s.types.length := lt_length_of_get? ht₀
      have hT₀a : (s.types.set a ByteType.Code).get? a = some ByteType.Code :=
        List.get?_set_eq_of_lt _ hlen
      split at h₁
      · exact DrainRes.noConfusion h₁
      · exact DrainRes.noConfusion h₁
      · rename_i T' L' q' hchain
        simp only [chainFuel] at hchain
        split at hchain
        · exact ChainRes.noConfusion hchain
        · -- decoding at the seed is illegal: the chain did nothing
          rename_i hdec
          injection hchain with e1 e2 e3
          subst e1; subst e2; subst e3
          have hQ : QInv (s.types.set a ByteType.Code) ([] : List (ByteType × Nat)) :=
            fun it hit => absurd hit (List.not_mem_nil it)
          obtain ⟨P1, P2, P3, P4, P5⟩ := drain_spec f _ [] s₁ h₁ hQ
          have hby : s₁.bytes = s.bytes := P4
          apply drain_code_noop
          · exact P1 a ByteType.Code hT₀a (by simp)
          · rw [hby, hdec]
            simp
          · intro instr hinstr
            rw [hby, hdec] at hinstr
            exact absurd hinstr (by simp)
          · intro instr hinstr
            rw [hby, hdec] at hinstr
            exact absurd hinstr (by simp)
        · rename_i instruction hdec
          split at hchain
          · exact ChainRes.noConfusion hchain
          · rename_i q₁ L₁ hjs
            obtain ⟨jmem, jchar, jlab⟩ := jumpStep_spec hjs
            split at hchain
            · -- the seed instruction does not fall through
              rename_i hffalse
              injection hchain with e1 e2 e3
              subst e1; subst e2; subst e3
              have hQ1 : QInv (s.types.set a ByteType.Code) q₁ := by
                intro it hit
                rcases jchar it hit with habs | ⟨hc, hu2⟩
                · exact absurd habs (List.not_mem_nil it)
                · refine ⟨hc, ?_⟩
                  rw [hu2]
                  simp
              obtain ⟨P1, P2, P3, P4, P5⟩ := drain_spec f _ q₁ s₁ h₁ hQ1
              have hby : s₁.bytes = s.bytes := P4
              have hbk : s₁.banks = s.banks := P5
              apply drain_code_noop
              · exact P1 a ByteType.Code hT₀a (by simp)
              · rw [hby, hdec]
                simp
              · intro instr hinstr u hu p hp
                rw [hby, hdec] at hinstr
                injection hinstr with hinstr
                subst hinstr
                rw [hbk] at hp
                obtain ⟨tp, htp, hpush, hlab1⟩ := jumpStep_out hjs hu hp
                constructor
                · by_cases htpu : tp = ByteType.Unknown
                  · exact ⟨ByteType.Code, P2 (ByteType.Code, p) (hpush htpu), by simp⟩
                  · exact ⟨tp, P1 p tp htp htpu, htpu⟩
                · obtain ⟨v, hv⟩ := Option.isSome_iff_exists.mp hlab1
                  rw [P3 p v hv]
                  rfl
              · intro instr hinstr hft
                rw [hby, hdec] at hinstr
                injection hinstr with hinstr
                subst hinstr
                rw [hffalse] at hft
                exact absurd hft (by simp)
            · rename_i hfnf
              split at hchain
              · exact ChainRes.noConfusion hchain
              · rename_i tnext hnext
                split at hchain
                · -- the fallthrough successor was Unknown: the chain went on
                  rename_i htnu
                  subst htnu
                  have hlen2 : a + instruction.size < (s.types.set a ByteType.Code).length :=
                    lt_length_of_get? hnext
                  have hna : a + instruction.size ≠ a := by
                    have := instruction.size_pos
                    omega
                  have hT₁a : ((s.types.set a ByteType.Code).set (a + instruction.size)
                      ByteType.Code).get? a = some ByteType.Code := by
                    rw [List.get?_set_ne _ _ hna]
                    exact hT₀a
                  have hT₁n : ((s.types.set a ByteType.Code).set (a + instruction.size)
                      ByteType.Code).get? (a + instruction.size) = some ByteType.Code :=
                    List.get?_set_eq_of_lt _ hlen2
                  obtain ⟨cPT, cmem, cchar, clab⟩ :=
                    chain_spec s.bytes s.banks _ _ L₁ (a + instruction.size) q₁ T' L' q' hchain
                  have hQ1 : QInv ((s.types.set a ByteType.Code).set (a + instruction.size)
                      ByteType.Code) q₁ := by
                    intro it hit
                    rcases jchar it hit with habs | ⟨hc, hu2⟩
                    · exact absurd habs (List.not_mem_nil it)
                    · refine ⟨hc, ?_⟩
                      by_cases hxn : it.2 = a + instruction.size
                      · rw [hxn, List.get?_set_eq_of_lt _ hlen2]
                        simp
                      · rw [List.get?_set_ne _ _ (Ne.symm hxn), hu2]
                        simp
                  have hQ' : QInv T' q' := chain_QInv hchain hQ1
                  obtain ⟨P1, P2, P3, P4, P5⟩ := drain_spec f _ q' s₁ h₁ hQ'
                  have hby : s₁.bytes = s.bytes := P4
                  have hbk : s₁.banks = s.banks := P5
                  have transport : ∀ x v, ((s.types.set a ByteType.Code).set
                      (a + instruction.size) ByteType.Code).get? x = some v →
                      v ≠ ByteType.Unknown → s₁.types.get? x = some v := by
                    intro x v hx hvne
                    have hTx : T'.get? x = some v := by
                      rcases cPT x with he | ⟨hu2, _⟩
                      · rw [he]
                        exact hx
                      · rw [hx] at hu2
                        injection hu2 with hu2
                        exact absurd hu2 hvne
                    exact P1 x v hTx hvne
                  apply drain_code_noop
                  · exact transport a ByteType.Code hT₁a (by simp)
                  · rw [hby, hdec]
                    simp
                  · intro instr hinstr u hu p hp
                    rw [hby, hdec] at hinstr
                    injection hinstr with hinstr
                    subst hinstr
                    rw [hbk] at hp
                    obtain ⟨tp, htp, hpush, hlab1⟩ := jumpStep_out hjs hu hp
                    constructor
                    · by_cases htpu : tp = ByteType.Unknown
                      · exact ⟨ByteType.Code,
                          P2 (ByteType.Code, p) (cmem _ (hpush htpu)), by simp⟩
                      · have hpn : p ≠ a + instruction.size := by
                          intro hpe
                          rw [hpe, hnext] at htp
                          injection htp with htp
                          exact htpu htp.symm
                        have htp1 : ((s.types.set a ByteType.Code).set
                            (a + instruction.size) ByteType.Code).get? p = some tp := by
                          rw [List.get?_set_ne _ _ (Ne.symm hpn)]
                          exact htp
                        exact ⟨tp, transport p tp htp1 htpu, htpu⟩
                    · obtain ⟨v, hv⟩ := Option.isSome_iff_exists.mp hlab1
                      rw [P3 p v (clab p v hv)]
                      rfl
                  · intro instr hinstr hft
                    rw [hby, hdec] at hinstr
                    injection hinstr with hinstr
                    subst hinstr
                    exact ⟨ByteType.Code,
                      transport (a + instruction.size) ByteType.Code hT₁n (by simp),
                      by simp⟩
                · -- the fallthrough successor was already classified
                  rename_i htnn
                  injection hchain with e1 e2 e3
                  subst e1; subst e2; subst e3
                  have hQ1 : QInv (s.types.set a ByteType.Code) q₁ := by
                    intro it hit
                    rcases jchar it hit with habs | ⟨hc, hu2⟩
                    · exact absurd habs (List.not_mem_nil it)
                    · refine ⟨hc, ?_⟩
                      rw [hu2]
                      simp
                  obtain ⟨P1, P2, P3, P4, P5⟩ := drain_spec f _ q₁ s₁ h₁ hQ1
                  have hby : s₁.bytes = s.bytes := P4
                  have hbk : s₁.banks = s.banks := P5
                  apply drain_code_noop
                  · exact P1 a ByteType.Code hT₀a (by simp)
                  · rw [hby, hdec]
                    simp
                  · intro instr hinstr u hu p hp
                    rw [hby, hdec] at hinstr
                    injection hinstr with hinstr
                    subst hinstr
                    rw [hbk] at hp
                    obtain ⟨tp, htp, hpush, hlab1⟩ := jumpStep_out hjs hu hp
                    constructor
                    · by_cases htpu : tp = ByteType.Unknown
                      · exact ⟨ByteType.Code, P2 (ByteType.Code, p) (hpush htpu), by simp⟩
                      · exact ⟨tp, P1 p tp htp htpu, htpu⟩
                    · obtain ⟨v, hv⟩ := Option.isSome_iff_exists.mp hlab1
                      rw [P3 p v hv]
                      rfl
                  · intro instr hinstr hft
                    rw [hby, hdec] at hinstr
                    injection hinstr with hinstr
                    subst hinstr
                    exact ⟨tnext, P1 (a + instruction.size) tnext hnext htnn, htnn⟩

/-- C7: an offset tagged `Data` survives any completed code-discovery drain
seeded at another offset: fallthrough stops before re-tagging a non-Unknown
offset and branch targets are only queued while `Unknown`, so no `Data` tag
is ever overwritten except by the explicit user change at the seed itself. -/
theorem claim_C7_data_tag_preserved
    (fuel : Nat) (s : AppState) (a : Nat) (s₁ : AppState)
    (h₁ : handle_type_changes fuel s [(ByteType.Code, a)] = .ok s₁)
    (x : Nat) (hxa : x ≠ a)
    (hx : s.types.get? x = some ByteType.Data) :
    s₁.types.get? x = some ByteType.Data := by
  cases fuel with
  | zero => simp [handle_type_changes] at h₁
  | succ f =>
    simp only [handle_type_changes] at h₁
    split at h₁
    · exact DrainRes.noConfusion h₁
    · rename_i t₀ ht₀
      simp only [if_true] at h₁
      split at h₁
      · exact DrainRes.noConfusion h₁
      · exact DrainRes.noConfusion h₁
      · rename_i T' L' q' hchain
        have hT₀x : (s.types.set a ByteType.Code).get? x = some ByteType.Data := by
          rw [List.get?_set_ne _ _ (Ne.symm hxa)]
          exact hx
        obtain ⟨cPT, _, _, _⟩ :=
          chain_spec s.bytes s.banks _ _ s.labels a [] T' L' q' hchain
        have hT'x : T'.get? x = some ByteType.Data := by
          rcases cPT x with he | ⟨hu, _⟩
          · rw [he]
            exact hT₀x
          · rw [hT₀x] at hu
            exact absurd hu (by simp)
        have hQ : QInv T' q' :=
          chain_QInv hchain (fun it hit => absurd hit (List.not_mem_nil it))
        obtain ⟨P1, _, _, _, _⟩ := drain_spec f _ q' s₁ h₁ hQ
        exact P1 x ByteType.Data hT'x (by simp)

/-- Witness for C7 at a concrete input: bytes `[NOP, NOP]`, offset 1 tagged
`Data`, discovery seeded at offset 0; the `Data` tag survives. -/
theorem claim_C7_witness :
    (AppState.mk [0x00, 0x00] [ByteType.Code, ByteType.Data]
      (fun _ => none) (fun _ => none)).types.get? 1 = some ByteType.Data :=
  claim_C7_data_tag_preserved 1
    ⟨[0x00, 0x00], [ByteType.Unknown, ByteType.Data], fun _ => none, fun _ => none⟩
    0 _ rfl 1 (by decide) rfl

/-- Witness for C9 at a concrete input: a one-byte ROM holding `RET`; after
one marking pass the second pass returns the state unchanged. -/
theorem claim_C9_witness :
    handle_type_changes 1
      (AppState.mk [0xC9] [ByteType.Code] (fun _ => none) (fun _ => none))
      [(ByteType.Code, 0)] =
    .ok (AppState.mk [0xC9] [ByteType.Code] (fun _ => none) (fun _ => none)) :=
  claim_C9_code_mark_idempotent 1
    ⟨[0xC9], [ByteType.Unknown], fun _ => none, fun _ => none⟩ 0 _ 0 rfl

/-- C10: handling a pending `(Data, a)` change rewrites exactly the tag at
`a` to `Data` and nothing else: the ROM bytes, the label map, the bank map
and every other offset's tag are unchanged, the pending queue is drained,
and no discovery chain runs (the navigation history is not even an input of
the operation). -/
theorem claim_C10_mark_data_frame (s : AppState) (a : Nat) (f : Nat)
    (ha : a < s.types.length) :
    handle_type_changes (f + 1) s [(ByteType.Data, a)] =
      .ok { s with types := s.types.set a ByteType.Data } ∧
    ∀ x, x ≠ a → (s.types.set a ByteType.Data).get? x = s.types.get? x := by
  constructor
  · have ht₀ : s.types.get? a = some (s.types.get ⟨a, ha⟩) := List.get?_eq_get ha
    simp only [handle_type_changes, ht₀]
    rfl
  · intro x hx
    exact List.get?_set_ne _ _ (Ne.symm hx)

/-- Witness for C10 at a concrete input. -/
theorem claim_C10_witness :
    (handle_type_changes (0 + 1)
      (AppState.mk [0x00, 0x00] [ByteType.Unknown, ByteType.Unknown]
        (fun _ => none) (fun _ => none))
      [(ByteType.Data, 0)] =
      .ok { AppState.mk [0x00, 0x00] [ByteType.Unknown, ByteType.Unknown]
          (fun _ => none) (fun _ => none) with
        types := [ByteType.Unknown, ByteType.Unknown].set 0 ByteType.Data }) ∧
    ([ByteType.Unknown, ByteType.Unknown].set 0 ByteType.Data).get? 1 =
      [ByteType.Unknown, ByteType.Unknown].get? 1 :=
  ⟨(claim_C10_mark_data_frame
      ⟨[0x00, 0x00], [ByteType.Unknown, ByteType.Unknown],
        fun _ => none, fun _ => none⟩ 0 0 (by decide)).1,
   (claim_C10_mark_data_frame
      ⟨[0x00, 0x00], [ByteType.Unknown, ByteType.Unknown],
        fun _ => none, fun _ => none⟩ 0 0 (by decide)).2 1 (by decide)⟩

/-- C2: Scenario A. On the image `[NOP, JP 0x0000, 0x00, 0x00]` with all
tags `Unknown`, marking offset 0 `Code` tags offsets 0 and 1 `Code` and
leaves the JP's operand bytes at offsets 2 and 3 unclassified: the branch
target resolves to offset 0, already `Code`, so nothing further is queued,
and the chain ends at the JP because it does not fall through. -/
theorem claim_C2_scenario_A :
    (handle_type_changes 1
      ⟨[0x00, 0xC3, 0x00, 0x00],
        [ByteType.Unknown, ByteType.Unknown, ByteType.Unknown, ByteType.Unknown],
        fun _ => none, fun _ => none⟩
      [(ByteType.Code, 0)]).finalTypes =
    some [ByteType.Code, ByteType.Code, ByteType.Unknown, ByteType.Unknown] := rfl

/-- C1: the guard of `Disassembler::mark_code` is inverted.  On the
single-byte image `[NOP]` with the seed tagged `Unknown`, decoding succeeds
and the claim requires the cursor to be tagged `Code` with processing
continuing; the code instead stops the chain (because the tag is not already
`Code`) and leaves the offset `Unknown`. -/
theorem claim_C1_inverted_code_guard :
    GBInstruction.from_bytes [0x00] = .ok .NOP ∧
    Disassembler.mark_code ⟨[0x00], [ByteType.Unknown]⟩ 1 0 = .ok [ByteType.Unknown] := by
  decide

/-- C3: `Disassembler::mark_code` need not terminate.  On the image
`[JP 0x0000, 0x00, 0x00]` with offset 0 already tagged `Code`, the inverted
guard lets the chain re-process offset 0, push its own branch target 0 back
onto the worklist, and loop forever: no amount of fuel completes the run. -/
theorem claim_C3_mark_code_diverges :
    ∀ fuel, Disassembler.mark_code
      ⟨[0xC3, 0x00, 0x00], [ByteType.Code, ByteType.Unknown, ByteType.Unknown]⟩
      fuel 0 = .fuelOut := by
  intro fuel
  induction fuel with
  | zero => rfl
  | succ f ih => exact ih

/-- C4: `GBInstruction::from_bytes` reads past the window instead of
returning none: a 3-byte `JP a16` with one byte left, the empty window, and
a 3-byte `LD BC, d16` with one byte left all hit Rust's unchecked indexing
(`bytes[1..3]`, `bytes[0]`) and panic. -/
theorem claim_C4_decode_panics_on_short_window :
    GBInstruction.from_bytes [0xC3] = .panic ∧
    GBInstruction.from_bytes ([] : List Nat) = .panic ∧
    GBInstruction.from_bytes [0x01] = .panic := by
  decide

/-- Counterexample to C5: resolving absolute 0x5000 from read-location
0x4500 with an empty bank map yields `Physical 0x5000`, not
`UnknownBank 0x1000` — the read location is itself inside the switchable
window, so `resolve_physical_address` infers the bank by self-reference
before ever consulting the bank map. -/
theorem claim_C5_counterexample :
    resolve_physical_address (fun _ => none) 0x4500 ⟨0x5000⟩ = .Physical 0x5000 ∧
    resolve_physical_address (fun _ => none) 0x4500 ⟨0x5000⟩ ≠ .UnknownBank 0x1000 := by
  decide

/-- C5 as amended: the `UnknownBank` result appears exactly when the read
location is outside the switchable window and has no bank assignment; then
absolute 0x5000 resolves to `UnknownBank 0x1000`. -/
theorem claim_C5_amended (banks : Nat → Option Nat) (read_at : Nat)
    (hb : banks read_at = none)
    (hout : ¬(0x4000 ≤ read_at ∧ read_at < 0x8000)) :
    resolve_physical_address banks read_at ⟨0x5000⟩ = .UnknownBank 0x1000 := by
  simp [resolve_physical_address, hb, hout]
  decide

/-- Witness for the amended C5 at read-location 0x0100 (fixed low window). -/
theorem claim_C5_witness :
    resolve_physical_address (fun _ => none) 0x0100 ⟨0x5000⟩ =
      .UnknownBank 0x1000 :=
  claim_C5_amended (fun _ => none) 0x0100 rfl (by decide)

/-- Counterexample to C8: on `[LD BC,d16; 0x00; 0x00]` (one 3-byte
instruction) with all tags `Unknown`, offset 2 lies strictly inside the
instruction starting at 0, yet `align_address_to_valid_location` returns 1:
the probe succeeds at the nearer offset 1 (its operand byte 0x00 decodes as
NOP) without checking that the decoded instruction spans offset 2. -/
theorem claim_C8_counterexample :
    GBInstruction.from_bytes [0x01, 0x00, 0x00] = .ok (.LDd16 .BC 0) ∧
    (GBInstruction.LDd16 .BC 0).size = 3 ∧
    (⟨[0x01, 0x00, 0x00],
      [ByteType.Unknown, ByteType.Unknown, ByteType.Unknown]⟩ :
      DisassemblerState).byte_type.get? 2 = some ByteType.Unknown ∧
    Disassembler.align_address_to_valid_location
      ⟨[0x01, 0x00, 0x00],
        [ByteType.Unknown, ByteType.Unknown, ByteType.Unknown]⟩ 2 = some 1 ∧
    some 1 ≠ some 0 := by
  decide

/-- C8 as amended: `Data`/`Code` offsets are returned unchanged, and an
`Unknown` offset snaps to the nearest earlier offset (first one byte back,
then two) at which a decode merely succeeds — the decoded instruction is not
required to span the queried offset, so a mid-instruction offset whose
preceding operand byte itself decodes snaps to that nearer offset rather
than to the instruction's start. -/
theorem claim_C8_amended :
    (∀ (st : DisassemblerState) (address : Nat) (t : ByteType),
      st.byte_type.get? address = some t → t ≠ ByteType.Unknown →
      Disassembler.align_address_to_valid_location st address = some address) ∧
    (∀ (st : DisassemblerState) (address : Nat) (i : GBInstruction),
      st.byte_type.get? address = some ByteType.Unknown → 1 ≤ address →
      GBInstruction.from_bytes (st.rom.drop (address - 1)) = .ok i →
      Disassembler.align_address_to_valid_location st address = some (address - 1)) := by
  constructor
  · intro st address t ht htne
    unfold Disassembler.align_address_to_valid_location
    rw [ht]
    cases t with
    | Unknown => exact absurd rfl htne
    | Data => rfl
    | Code => rfl
  · intro st address i ht h1 hdec
    unfold Disassembler.align_address_to_valid_location
    have hcond : 1 < min 3 (address + 1) := by omega
    simp only [ht, if_pos hcond, hdec]

/-- Witness for the amended C8: a `Data` offset is returned as-is, and the
mid-instruction `Unknown` offset of the counterexample snaps one byte back. -/
theorem claim_C8_witness :
    Disassembler.align_address_to_valid_location ⟨[0x00], [ByteType.Data]⟩ 0 =
      some 0 ∧
    Disassembler.align_address_to_valid_location
      ⟨[0x01, 0x00, 0x00],
        [ByteType.Unknown, ByteType.Unknown, ByteType.Unknown]⟩ 2 = some 1 :=
  ⟨claim_C8_amended.1 ⟨[0x00], [ByteType.Data]⟩ 0 ByteType.Data rfl (by decide),
   claim_C8_amended.2
     ⟨[0x01, 0x00, 0x00],
       [ByteType.Unknown, ByteType.Unknown, ByteType.Unknown]⟩ 2
     GBInstruction.NOP rfl (by decide) rfl⟩

/-- Back steps compose: `n + 1` back commands are `n` back commands followed
by one more. -/
theorem backSeq_succ (n : Nat) : ∀ s : NavState,
    backSeq s (n + 1) = (backSeq s n).bind backStep := by
  induction n with
  | zero =>
    intro s
    cases hb : backStep s <;> simp [backSeq, hb]
  | succ n ih =>
    intro s
    show (backStep s).bind (fun s' => backSeq s' (n + 1)) =
      ((backStep s).bind (fun s' => backSeq s' n)).bind backStep
    cases hb : backStep s with
    | none => simp
    | some s' => simp [ih s']

/-- Follow/back symmetry of the history, strengthened for induction: a run
of follows and then as many backs succeeds from any well-formed history
state, restores the cursor offset and the top index, can only grow the
stack, and leaves the entries below the original top untouched. -/
theorem followSeq_backSeq (targets : List Nat) :
    ∀ s : NavState, s.top ≤ s.stack.length →
    ∃ s', (followSeq s targets).bind (fun s₂ => backSeq s₂ targets.length) = some s' ∧
      s'.selected = s.selected ∧ s'.top = s.top ∧
      s.stack.length ≤ s'.stack.length ∧ s'.top ≤ s'.stack.length ∧
      (∀ i, i < s.top → s'.stack.get? i = s.stack.get? i) := by
  induction targets with
  | nil =>
    intro s hs
    refine ⟨s, ?_, rfl, rfl, le_refl _, hs, fun i hi => rfl⟩
    simp [followSeq, backSeq]
  | cons t ts ih =>
    intro s hs
    have hpf : ∃ st1 : NavState, push_follow s s.selected = some st1 ∧
        st1.top = s.top + 1 ∧
        s.stack.length ≤ st1.stack.length ∧ st1.top ≤ st1.stack.length ∧
        st1.stack.get? s.top = some s.selected ∧
        (∀ i, i < s.top → st1.stack.get? i = s.stack.get? i) := by
      by_cases htop : s.top = s.stack.length
      · refine ⟨⟨s.selected, s.stack ++ [s.selected], s.top + 1⟩, ?_, rfl, ?_, ?_, ?_, ?_⟩
        · simp [push_follow, htop]
        · simp
        · simp
          omega
        · rw [htop]
          exact List.get?_concat_length _ _
        · intro i hi
          exact List.get?_append (by omega)
      · have hlt : s.top < s.stack.length := lt_of_le_of_ne hs htop
        refine ⟨⟨s.selected, s.stack.set s.top s.selected, s.top + 1⟩, ?_, rfl, ?_, ?_, ?_, ?_⟩
        · simp [push_follow, htop, hlt]
        · simp
        · simp
          omega
        · exact List.get?_set_eq_of_lt _ hlt
        · intro i hi
          exact List.get?_set_ne _ _ (by omega)
    obtain ⟨st1, hpf1, htop1, hlen1, hwf1, hat1, hagree1⟩ := hpf
    have hfollow : followTo s t = some ⟨t, st1.stack, st1.top⟩ := by
      simp [followTo, hpf1]
    obtain ⟨s₂, hseq, hsel2, htop2, hlen2, hwf2, hagree2⟩ :=
      ih ⟨t, st1.stack, st1.top⟩ hwf1
    have ht2 : s₂.top = s.top + 1 := by
      rw [htop2]
      exact htop1
    have hback : backStep s₂ = some ⟨s.selected, s₂.stack, s.top⟩ := by
      unfold backStep
      have hne : ¬s₂.top = 0 := by omega
      rw [if_neg hne]
      have hidx : s₂.top - 1 = s.top := by omega
      have hget : s₂.stack.get? (s₂.top - 1) = some s.selected := by
        rw [hidx]
        have h2 := hagree2 s.top (by rw [htop1]; omega)
        rw [h2]
        exact hat1
      rw [hget, hidx]
    have hcomp : (followSeq s (t :: ts)).bind
        (fun s₂ => backSeq s₂ (t :: ts).length) = (some s₂).bind backStep := by
      show ((followTo s t).bind (fun s' => followSeq s' ts)).bind
        (fun s₂ => backSeq s₂ (ts.length + 1)) = (some s₂).bind backStep
      rw [hfollow]
      simp only [Option.some_bind, backSeq_succ]
      rw [← Option.bind_assoc, hseq]
      rfl
    refine ⟨⟨s.selected, s₂.stack, s.top⟩, ?_, rfl, rfl, ?_, ?_, ?_⟩
    · rw [hcomp]
      simp [hback]
    · calc s.stack.length ≤ st1.stack.length := hlen1
        _ ≤ s₂.stack.length := hlen2
    · show s.top ≤ s₂.stack.length
      have : st1.stack.length ≤ s₂.stack.length := hlen2
      omega
    · intro i hi
      show s₂.stack.get? i = s.stack.get? i
      have h2 := hagree2 i (by rw [htop1]; omega)
      rw [h2]
      exact hagree1 i hi

/-- Counterexample to C6's forward-discard clause: follow to 20, follow to
30, back twice, follow to 40 — the claim says a subsequent forward is a
no-op, but the code's forward moves the cursor to the stale target 20,
because `push_follow` overwrote one slot without discarding the entry
beyond the new top. -/
theorem claim_C6_counterexample :
    ((((followTo ⟨10, [], 0⟩ 20).bind (fun s => followTo s 30)).bind
        backStep).bind backStep).bind (fun s => followTo s 40) =
      some ⟨40, [10, 20], 1⟩ ∧
    forwardStep ⟨40, [10, 20], 1⟩ = some ⟨20, [10, 20], 2⟩ ∧
    (⟨20, [10, 20], 2⟩ : NavState).selected ≠
      (⟨40, [10, 20], 1⟩ : NavState).selected := by
  decide

/-- C6 as amended: N follows followed by N backs restore the original cursor
offset from every well-formed history state; but a follow issued after back
steps only overwrites the slot at the cursor and keeps the entries beyond
it, so a subsequent forward returns the stale target (it is not a no-op):
from `⟨10, [10, 20], 0⟩` (two backs taken), following to 40 leaves the
stale entry 20 in place and forward then moves the cursor to 20. -/
theorem claim_C6_follow_back_symmetry :
    (∀ (s : NavState) (targets : List Nat), s.top ≤ s.stack.length →
      ∃ s', (followSeq s targets).bind
          (fun s₂ => backSeq s₂ targets.length) = some s' ∧
        s'.selected = s.selected) ∧
    followTo ⟨10, [10, 20], 0⟩ 40 = some ⟨40, [10, 20], 1⟩ ∧
    forwardStep ⟨40, [10, 20], 1⟩ = some ⟨20, [10, 20], 2⟩ := by
  refine ⟨?_, by decide, by decide⟩
  intro s targets hwf
  obtain ⟨s', h1, h2, _, _, _, _⟩ := followSeq_backSeq targets s hwf
  exact ⟨s', h1, h2⟩

/-- Witness for the amended C6: two follows and two backs from a fresh
history restore the cursor to 5, and the concrete stale-forward behaviour. -/
theorem claim_C6_witness :
    (∃ s', (followSeq ⟨5, [], 0⟩ [1, 2]).bind (fun s₂ => backSeq s₂ 2) =
        some s' ∧ s'.selected = 5) ∧
    followTo ⟨10, [10, 20], 0⟩ 40 = some ⟨40, [10, 20], 1⟩ ∧
    forwardStep ⟨40, [10, 20], 1⟩ = some ⟨20, [10, 20], 2⟩ :=
  ⟨claim_C6_follow_back_symmetry.1 ⟨5, [], 0⟩ [1, 2] (by decide),
   claim_C6_follow_back_symmetry.2.1, claim_C6_follow_back_symmetry.2.2⟩
